import Mathlib

/-!
Shallow embedding of `src/visualize_brush_variants.py`.

The script lists the files of a fixed folder that match the pattern
`brush_variant_<index>.csv`, sorts them by the integer embedded in the
name, loads each as a 2D numeric array, computes a global minimum and
maximum over all cells, and renders one heatmap panel per array in a
single row with a shared colorbar.

Embedding choices:
  * A directory listing is a `List String` (the result of `os.listdir`);
    the file contents are given by a map `fs : String → List (List Int)`
    standing for `np.loadtxt` of each file.  Cell values are modelled as
    integers: the script only compares values (min/max), never does
    arithmetic on them, so any linearly ordered carrier is faithful.
  * Python string builtins (`split`, `startswith`, `endswith`, `strip`,
    `int`) are re-implemented structurally on `List Char` so that all
    definitions evaluate inside the kernel.
  * Exceptions (ValueError from `int(...)` or from `min`/`max` of an
    empty sequence, TypeError from iterating a lone Axes handle,
    IndexError from `ims[0]`) are modelled with `Option`: `none` means
    the run aborts with an uncaught exception.
  * Matplotlib objects are modelled by the arguments the script passes
    to them: a `Panel` records what `ax.imshow`/`set_title`/`axis`
    receive, a `Figure` records the `plt.subplots` layout and the
    colorbar call.
-/

/-- Python `list.split(sep)` for a single-character separator, on char
lists: splitting never drops empty pieces, so `a__b` gives three parts. -/
def splitChars (sep : Char) : List Char → List (List Char)
  | [] => [[]]
  | c :: rest =>
    if c = sep then [] :: splitChars sep rest
    else match splitChars sep rest with
      | [] => [[c]]
      | g :: gs => (c :: g) :: gs

/-- Python `s.split(sep)` for a one-character separator string. -/
def pySplit (s : String) (sep : Char) : List String :=
  (splitChars sep s.toList).map (fun cs => String.mk cs)

/-- Python `s.startswith(pre)`. -/
def pyStartsWith (s pre : String) : Bool :=
  pre.toList.isPrefixOf s.toList

/-- Python `s.endswith(suf)`. -/
def pyEndsWith (s suf : String) : Bool :=
  suf.toList.isSuffixOf s.toList

/-- Python `s.strip()`: remove leading and trailing whitespace. -/
def pyStrip (s : String) : String :=
  String.mk ((((s.toList.dropWhile Char.isWhitespace).reverse).dropWhile
    Char.isWhitespace).reverse)

/-- Decimal value of a digit string. -/
def digitsToNat (cs : List Char) : Nat :=
  cs.foldl (fun n c => n * 10 + (c.toNat - 48)) 0

/-- Python `int(s)` on a string: strip whitespace, allow one sign, then
require a non-empty run of decimal digits; otherwise raise `ValueError`
(modelled by `none`).  (Digit-group underscores cannot occur here: the
script only ever parses the piece after the last underscore.) -/
def pyInt (s : String) : Option Int :=
  let t := (pyStrip s).toList
  let neg := match t with
    | c :: _ => c == Char.ofNat 45
    | [] => false
  let ds := match t with
    | c :: rest => if c == Char.ofNat 45 || c == Char.ofNat 43 then rest else t
    | [] => t
  if ds.isEmpty || !(ds.all Char.isDigit) then none
  else some (if neg then -(digitsToNat ds : Int) else (digitsToNat ds : Int))

/-- Sort key of line 12: `int(x.split('_')[-1].split('.')[0])`: the piece
between the last underscore (char 95) and the first following dot
(char 46), parsed as an integer. -/
def fileKey (f : String) : Option Int :=
  pyInt ((pySplit ((pySplit f (Char.ofNat 95)).getLastD "") (Char.ofNat 46)).headD "")

/-- The filter of lines 10–11: keep names with prefix `brush_variant_`
and suffix `.csv`. -/
def matchedFiles (listing : List String) : List String :=
  listing.filter (fun f => pyStartsWith f "brush_variant_" && pyEndsWith f ".csv")

/-- Total version of the sort key (only used under the guard that every
key parses, mirroring that `sorted` evaluates `key` on every element). -/
def keyD (f : String) : Int :=
  (fileKey f).getD 0

/-- Comparison used by the sort: ascending embedded index. -/
def keyLE (a b : String) : Prop :=
  keyD a ≤ keyD b

instance : DecidableRel keyLE :=
  fun a b => inferInstanceAs (Decidable (keyD a ≤ keyD b))

instance : IsTotal String keyLE :=
  ⟨fun a b => Int.le_total (keyD a) (keyD b)⟩

instance : IsTrans String keyLE :=
  ⟨fun _ _ _ hab hbc => Int.le_trans hab hbc⟩

/-- Lines 9–12: the matched names sorted by embedded integer index.
`sorted` applies the key to every element, so a single unparsable index
raises `ValueError` before any order is produced: that is the `none`
case. -/
def csv_files (listing : List String) : Option (List String) :=
  let files := matchedFiles listing
  if files.all (fun f => (fileKey f).isSome)
  then some (List.insertionSort keyLE files)
  else none

/-- Python `min` over a sequence of ints: `ValueError` on empty input. -/
def listMin : List Int → Option Int
  | [] => none
  | x :: xs =>
    match listMin xs with
    | none => some x
    | some m => some (min x m)

/-- Python `max` over a sequence of ints: `ValueError` on empty input. -/
def listMax : List Int → Option Int
  | [] => none
  | x :: xs =>
    match listMax xs with
    | none => some x
    | some m => some (max x m)

/-- A generator expression that can raise: evaluate `f` on every element
in order, aborting the whole run on the first exception. -/
def mapOpt (f : α → Option β) : List α → Option (List β)
  | [] => some []
  | x :: xs =>
    match f x, mapOpt f xs with
    | some y, some ys => some (y :: ys)
    | _, _ => none

/-- Line 16: `global_min = min(arr.min() for arr in arrays)`: each
`arr.min()` is the minimum over all cells of the 2D array (error if the
array has no cell), and the outer `min` errors on an empty sequence. -/
def global_min (arrays : List (List (List Int))) : Option Int :=
  (mapOpt (fun arr => listMin arr.flatten) arrays).bind listMin

/-- Line 17: `global_max = max(arr.max() for arr in arrays)`. -/
def global_max (arrays : List (List (List Int))) : Option Int :=
  (mapOpt (fun arr => listMax arr.flatten) arrays).bind listMax

/-- What `plt.subplots(1, n)` hands back as `axes`: a lone Axes handle
when `n = 1`, an array of handles otherwise.  Handles are identified by
their column position. -/
inductive AxesResult where
  | single (ax : Nat)
  | many (axs : List Nat)
deriving DecidableEq

/-- Line 20 result shape for `axes`. -/
def subplotsAxes (n : Nat) : AxesResult :=
  if n = 1 then AxesResult.single 0 else AxesResult.many (List.range n)

/-- Iterating over `axes`: a lone Axes handle is not a sequence, so
`zip` over it raises `TypeError`. -/
def seqAxes : AxesResult → Option (List Nat)
  | AxesResult.single _ => none
  | AxesResult.many axs => some axs

/-- Lines 20–23: obtain `axes` and apply the normalization
`if len(arrays) == 1: axes = [axes]`.  In the `n = 1` branch the handle
is always lone (the `many` case there is unreachable, left as the
error value). -/
def axesList (n : Nat) : Option (List Nat) :=
  if n = 1 then
    match subplotsAxes n with
    | AxesResult.single ax => some [ax]
    | AxesResult.many _ => none
  else seqAxes (subplotsAxes n)

/-- One rendered panel: the record of the calls on lines 27–30,
`ax.imshow(arr, cmap='hot', interpolation='nearest', vmin=global_min,
vmax=global_max)`, `ax.set_title(f'Variant {idx}')` (the braces are in
the source f-string), and `ax.axis('off')`. -/
structure Panel where
  ax : Nat
  data : List (List Int)
  cmap : String
  interpolation : String
  vmin : Int
  vmax : Int
  title : String
  axisOn : Bool
deriving DecidableEq

/-- Loop body of lines 26–30. -/
def mkPanel (idx : Nat) (arr : List (List Int)) (ax : Nat) (gmin gmax : Int) : Panel :=
  { ax := ax
    data := arr
    cmap := "hot"
    interpolation := "nearest"
    vmin := gmin
    vmax := gmax
    title := "Variant " ++ toString idx
    axisOn := false }

/-- The colorbar call of line 33. -/
structure Colorbar where
  mappable : Panel
  targetAxes : List Nat
  orientation : String
  fraction : ℚ
  pad : ℚ
deriving DecidableEq

/-- The figure: layout of line 20 plus the panels and the colorbar. -/
structure Figure where
  nrows : Nat
  ncols : Nat
  figWidth : Nat
  figHeight : Nat
  panels : List Panel
  colorbars : List Colorbar
deriving DecidableEq

/-- Line 33 `ax=` argument: the whole axes row when there are several
arrays, else `axes[0]` (IndexError on an empty list, modelled `none`).
Either way the colorbar is attached to a set of axes. -/
def cbarTargetOf (n : Nat) (axes : List Nat) : Option (List Nat) :=
  if n > 1 then some axes
  else (axes.head?).map (fun a => [a])

/-- Assembling the figure value. -/
def mkFigure (n : Nat) (panels : List Panel) (im0 : Panel) (cbarAx : List Nat) : Figure :=
  { nrows := 1
    ncols := n
    figWidth := 3 * n
    figHeight := 3
    panels := panels
    colorbars := [{ mappable := im0
                    targetAxes := cbarAx
                    orientation := "vertical"
                    fraction := (46 : ℚ) / 1000
                    pad := (4 : ℚ) / 100 }] }

/-- The whole script, lines 9–33, given the directory listing and the
file contents.  `none` is an uncaught exception: the process aborts and
no figure is produced. -/
def run (listing : List String) (fs : String → List (List Int)) : Option Figure :=
  (csv_files listing).bind (fun files =>
    let arrays := files.map fs
    (global_min arrays).bind (fun gmin =>
      (global_max arrays).bind (fun gmax =>
        (axesList arrays.length).bind (fun axes =>
          let panels := ((arrays.zip axes).enum).map
            (fun p => mkPanel p.1 p.2.1 p.2.2 gmin gmax)
          (panels.head?).bind (fun im0 =>
            (cbarTargetOf arrays.length axes).map (fun cbarAx =>
              mkFigure arrays.length panels im0 cbarAx))))))

/-! Helper lemmas about the reduction primitives. -/

theorem listMin_isSome {xs : List Int} (h : xs ≠ []) : ∃ m, listMin xs = some m := by
  cases xs with
  | nil => exact absurd rfl h
  | cons x xs =>
    cases hm : listMin xs with
    | none => exact ⟨x, by simp [listMin, hm]⟩
    | some k => exact ⟨min x k, by simp [listMin, hm]⟩

theorem listMin_eq_none {xs : List Int} (h : listMin xs = none) : xs = [] := by
  cases xs with
  | nil => rfl
  | cons x xs =>
    cases hm : listMin xs with
    | none => simp [listMin, hm] at h
    | some k => simp [listMin, hm] at h

theorem listMin_le {xs : List Int} {m : Int} (h : listMin xs = some m) :
    ∀ a ∈ xs, m ≤ a := by
  induction xs generalizing m with
  | nil => simp [listMin] at h
  | cons x xs ih =>
    intro a ha
    cases hm : listMin xs with
    | none =>
      rw [listMin_eq_none hm] at ha
      simp [listMin, hm] at h
      rcases List.mem_singleton.mp ha with rfl
      omega
    | some k =>
      simp [listMin, hm] at h
      rcases List.mem_cons.mp ha with rfl | ha2
      · omega
      · have := ih hm a ha2
        omega

theorem listMin_mem {xs : List Int} {m : Int} (h : listMin xs = some m) : m ∈ xs := by
  induction xs generalizing m with
  | nil => simp [listMin] at h
  | cons x xs ih =>
    cases hm : listMin xs with
    | none =>
      simp [listMin, hm] at h
      simp [h]
    | some k =>
      simp [listMin, hm] at h
      rcases min_cases x k with ⟨he, _⟩ | ⟨he, _⟩
      · simp [← h, he]
      · right
        rw [← h, he]
        exact ih hm

theorem listMax_isSome {xs : List Int} (h : xs ≠ []) : ∃ m, listMax xs = some m := by
  cases xs with
  | nil => exact absurd rfl h
  | cons x xs =>
    cases hm : listMax xs with
    | none => exact ⟨x, by simp [listMax, hm]⟩
    | some k => exact ⟨max x k, by simp [listMax, hm]⟩

theorem listMax_eq_none {xs : List Int} (h : listMax xs = none) : xs = [] := by
  cases xs with
  | nil => rfl
  | cons x xs =>
    cases hm : listMax xs with
    | none => simp [listMax, hm] at h
    | some k => simp [listMax, hm] at h

theorem listMax_ge {xs : List Int} {m : Int} (h : listMax xs = some m) :
    ∀ a ∈ xs, a ≤ m := by
  induction xs generalizing m with
  | nil => simp [listMax] at h
  | cons x xs ih =>
    intro a ha
    cases hm : listMax xs with
    | none =>
      rw [listMax_eq_none hm] at ha
      simp [listMax, hm] at h
      rcases List.mem_singleton.mp ha with rfl
      omega
    | some k =>
      simp [listMax, hm] at h
      rcases List.mem_cons.mp ha with rfl | ha2
      · omega
      · have := ih hm a ha2
        omega

theorem listMax_mem {xs : List Int} {m : Int} (h : listMax xs = some m) : m ∈ xs := by
  induction xs generalizing m with
  | nil => simp [listMax] at h
  | cons x xs ih =>
    cases hm : listMax xs with
    | none =>
      simp [listMax, hm] at h
      simp [h]
    | some k =>
      simp [listMax, hm] at h
      rcases max_cases x k with ⟨he, _⟩ | ⟨he, _⟩
      · simp [← h, he]
      · right
        rw [← h, he]
        exact ih hm

theorem mapOpt_isSome {f : α → Option β} {xs : List α}
    (h : ∀ x ∈ xs, (f x).isSome = true) : ∃ ys, mapOpt f xs = some ys := by
  induction xs with
  | nil => exact ⟨[], rfl⟩
  | cons x xs ih =>
    obtain ⟨y, hy⟩ := Option.isSome_iff_exists.mp (h x (List.mem_cons_self x xs))
    obtain ⟨ys, hys⟩ := ih (fun a ha => h a (List.mem_cons_of_mem x ha))
    exact ⟨y :: ys, by simp [mapOpt, hy, hys]⟩

theorem mapOpt_length {f : α → Option β} {xs : List α} {ys : List β}
    (h : mapOpt f xs = some ys) : ys.length = xs.length := by
  induction xs generalizing ys with
  | nil =>
    simp [mapOpt] at h
    simp [← h]
  | cons x xs ih =>
    cases hx : f x with
    | none => simp [mapOpt, hx] at h
    | some y =>
      cases hm : mapOpt f xs with
      | none => simp [mapOpt, hx, hm] at h
      | some zs =>
        simp [mapOpt, hx, hm] at h
        rw [← h]
        simp [ih hm]

theorem mapOpt_mem {f : α → Option β} {xs : List α} {ys : List β} {y : β}
    (h : mapOpt f xs = some ys) (hy : y ∈ ys) : ∃ x ∈ xs, f x = some y := by
  induction xs generalizing ys with
  | nil =>
    simp [mapOpt] at h
    subst h
    simp at hy
  | cons x xs ih =>
    cases hx : f x with
    | none => simp [mapOpt, hx] at h
    | some z =>
      cases hm : mapOpt f xs with
      | none => simp [mapOpt, hx, hm] at h
      | some zs =>
        simp [mapOpt, hx, hm] at h
        rw [← h] at hy
        rcases List.mem_cons.mp hy with rfl | hy2
        · exact ⟨x, List.mem_cons_self x xs, hx⟩
        · obtain ⟨a, ha, hfa⟩ := ih hm hy2
          exact ⟨a, List.mem_cons_of_mem x ha, hfa⟩

theorem mapOpt_forall {f : α → Option β} {xs : List α} {ys : List β} {x : α}
    (h : mapOpt f xs = some ys) (hx : x ∈ xs) : ∃ y ∈ ys, f x = some y := by
  induction xs generalizing ys with
  | nil => simp at hx
  | cons a xs ih =>
    cases ha : f a with
    | none => simp [mapOpt, ha] at h
    | some z =>
      cases hm : mapOpt f xs with
      | none => simp [mapOpt, ha, hm] at h
      | some zs =>
        simp [mapOpt, ha, hm] at h
        rcases List.mem_cons.mp hx with rfl | hx2
        · exact ⟨z, by simp [← h], ha⟩
        · obtain ⟨y, hy, hfy⟩ := ih hm hx2
          exact ⟨y, by simp [← h, hy], hfy⟩

theorem global_min_spec {arrays : List (List (List Int))} (h1 : arrays ≠ [])
    (h2 : ∀ m ∈ arrays, m.flatten ≠ []) :
    ∃ g, global_min arrays = some g ∧
      (∀ m ∈ arrays, ∀ c ∈ m.flatten, g ≤ c) ∧ ∃ m ∈ arrays, g ∈ m.flatten := by
  have hs : ∀ m ∈ arrays, ((fun arr => listMin arr.flatten) m).isSome = true := by
    intro m hm
    obtain ⟨v, hv⟩ := listMin_isSome (h2 m hm)
    simp [hv]
  obtain ⟨ys, hys⟩ := mapOpt_isSome hs
  have hyne : ys ≠ [] := by
    intro h0
    rw [h0] at hys
    have hlen := mapOpt_length hys
    simp at hlen
    exact h1 (List.eq_nil_of_length_eq_zero hlen.symm)
  obtain ⟨g, hg⟩ := listMin_isSome hyne
  refine ⟨g, ?_, ?_, ?_⟩
  · rw [global_min, hys]
    simpa using hg
  · intro m hm c hc
    obtain ⟨y, hy, hfy⟩ := mapOpt_forall hys hm
    exact le_trans (listMin_le hg y hy) (listMin_le hfy c hc)
  · obtain ⟨m, hm, hfm⟩ := mapOpt_mem hys (listMin_mem hg)
    exact ⟨m, hm, listMin_mem hfm⟩

theorem global_max_spec {arrays : List (List (List Int))} (h1 : arrays ≠ [])
    (h2 : ∀ m ∈ arrays, m.flatten ≠ []) :
    ∃ g, global_max arrays = some g ∧
      (∀ m ∈ arrays, ∀ c ∈ m.flatten, c ≤ g) ∧ ∃ m ∈ arrays, g ∈ m.flatten := by
  have hs : ∀ m ∈ arrays, ((fun arr => listMax arr.flatten) m).isSome = true := by
    intro m hm
    obtain ⟨v, hv⟩ := listMax_isSome (h2 m hm)
    simp [hv]
  obtain ⟨ys, hys⟩ := mapOpt_isSome hs
  have hyne : ys ≠ [] := by
    intro h0
    rw [h0] at hys
    have hlen := mapOpt_length hys
    simp at hlen
    exact h1 (List.eq_nil_of_length_eq_zero hlen.symm)
  obtain ⟨g, hg⟩ := listMax_isSome hyne
  refine ⟨g, ?_, ?_, ?_⟩
  · rw [global_max, hys]
    simpa using hg
  · intro m hm c hc
    obtain ⟨y, hy, hfy⟩ := mapOpt_forall hys hm
    exact le_trans (listMax_ge hfy c hc) (listMax_ge hg y hy)
  · obtain ⟨m, hm, hfm⟩ := mapOpt_mem hys (listMax_mem hg)
    exact ⟨m, hm, listMax_mem hfm⟩

theorem global_min_ne_nil {arrays : List (List (List Int))} {g : Int}
    (h : global_min arrays = some g) : arrays ≠ [] := by
  intro h0
  subst h0
  simp [global_min, mapOpt, listMin] at h

theorem axesList_length {n : Nat} {axes : List Nat} (h : axesList n = some axes) :
    axes.length = n := by
  by_cases h1 : n = 1
  · subst h1
    simp [axesList, subplotsAxes] at h
    simp [← h]
  · simp [axesList, h1, subplotsAxes, seqAxes] at h
    simp [← h]

theorem run_inv {listing : List String} {fs : String → List (List Int)} {fig : Figure}
    (h : run listing fs = some fig) :
    ∃ l gmin gmax axes,
      csv_files listing = some l ∧
      global_min (l.map fs) = some gmin ∧
      global_max (l.map fs) = some gmax ∧
      axesList (l.map fs).length = some axes ∧
      axes.length = (l.map fs).length ∧
      fig.panels = (((l.map fs).zip axes).enum).map
        (fun p => mkPanel p.1 p.2.1 p.2.2 gmin gmax) ∧
      fig.nrows = 1 ∧ fig.ncols = (l.map fs).length ∧
      fig.figWidth = 3 * (l.map fs).length ∧ fig.figHeight = 3 ∧
      fig.colorbars.length = 1 := by
  simp only [run, Option.bind_eq_some, Option.map_eq_some'] at h
  obtain ⟨l, hc, gmin, hg, gmax, hG, axes, ha, im0, him, cbarAx, hcb, hfig⟩ := h
  subst hfig
  exact ⟨l, gmin, gmax, axes, hc, hg, hG, ha, axesList_length ha, rfl, rfl, rfl, rfl,
    rfl, rfl⟩

/-! Concrete inputs used by the witness statements. -/

/-- Two 1x2 and 1x1 sample arrays. -/
def sampleArrays : List (List (List Int)) := [[[0, 5]], [[3]]]

/-- C1: for every non-empty sequence of loaded arrays (each with at least
one cell, as required for `arr.min()` to be defined), the computed global
scale exists and satisfies: `global_min ≤ c ≤ global_max` for every cell
`c` of every array, each bound is attained by at least one cell across
the full set, and `global_min ≤ global_max`. -/
theorem global_scale_bounds_attained (arrays : List (List (List Int)))
    (h1 : arrays ≠ []) (h2 : ∀ m ∈ arrays, m.flatten ≠ []) :
    ∃ gmin gmax, global_min arrays = some gmin ∧ global_max arrays = some gmax ∧
      gmin ≤ gmax ∧
      (∀ m ∈ arrays, ∀ c ∈ m.flatten, gmin ≤ c ∧ c ≤ gmax) ∧
      (∃ m ∈ arrays, gmin ∈ m.flatten) ∧ (∃ m ∈ arrays, gmax ∈ m.flatten) := by
  obtain ⟨gmin, hmin, hminle, hminmem⟩ := global_min_spec h1 h2
  obtain ⟨gmax, hmax, hmaxge, hmaxmem⟩ := global_max_spec h1 h2
  obtain ⟨m0, hm0, hg0⟩ := hminmem
  exact ⟨gmin, gmax, hmin, hmax, hmaxge m0 hm0 gmin hg0,
    fun m hm c hc => ⟨hminle m hm c hc, hmaxge m hm c hc⟩, ⟨m0, hm0, hg0⟩, hmaxmem⟩

/-- Witness for C1 at a concrete pair of arrays with scale (0, 5). -/
theorem global_scale_bounds_attained_witness :
    ∃ gmin gmax, global_min sampleArrays = some gmin ∧
      global_max sampleArrays = some gmax ∧ gmin ≤ gmax ∧
      (∀ m ∈ sampleArrays, ∀ c ∈ m.flatten, gmin ≤ c ∧ c ≤ gmax) ∧
      (∃ m ∈ sampleArrays, gmin ∈ m.flatten) ∧
      (∃ m ∈ sampleArrays, gmax ∈ m.flatten) :=
  global_scale_bounds_attained sampleArrays (by decide) (by decide)

/-- C2: whenever every matched filename has a parseable index (as every
name of the form brush_variant_N.csv does), discovery returns exactly the
matched names, ordered by ascending integer value of the embedded index
(the numeric sort key, not lexicographic order). -/
theorem discovery_sorted_by_index (listing : List String)
    (h : ∀ f ∈ matchedFiles listing, (fileKey f).isSome = true) :
    ∃ l, csv_files listing = some l ∧ l.Perm (matchedFiles listing) ∧
      l.Pairwise keyLE := by
  have hall : (matchedFiles listing).all (fun f => (fileKey f).isSome) = true :=
    List.all_eq_true.mpr h
  refine ⟨List.insertionSort keyLE (matchedFiles listing), ?_, ?_, ?_⟩
  · simp [csv_files, hall]
  · exact List.perm_insertionSort keyLE (matchedFiles listing)
  · exact List.sorted_insertionSort keyLE (matchedFiles listing)

/-- Witness for C2: brush_variant_10.csv sorts after brush_variant_9.csv
even though lexicographically 10 comes first. -/
theorem discovery_sorted_by_index_witness :
    csv_files ["brush_variant_10.csv", "brush_variant_9.csv"] =
      some ["brush_variant_9.csv", "brush_variant_10.csv"] ∧
    ∃ l, csv_files ["brush_variant_10.csv", "brush_variant_9.csv"] = some l ∧
      l.Perm (matchedFiles ["brush_variant_10.csv", "brush_variant_9.csv"]) ∧
      l.Pairwise keyLE :=
  ⟨by decide, discovery_sorted_by_index _ (by decide)⟩

/-- C3: with zero matching files the reduction over an empty sequence has
no value (Python min/max raise ValueError), the run aborts and no figure
is produced. -/
theorem empty_input_aborts (listing : List String) (fs : String → List (List Int))
    (h : matchedFiles listing = []) :
    global_min [] = none ∧ global_max [] = none ∧ run listing fs = none := by
  refine ⟨rfl, rfl, ?_⟩
  have hc : csv_files listing = some [] := by
    simp [csv_files, h]
  simp [run, hc, global_min, mapOpt, listMin]

/-- Witness for C3 at a directory with a single non-matching file. -/
theorem empty_input_aborts_witness :
    global_min [] = none ∧ global_max [] = none ∧
      run ["readme.txt"] (fun _ => []) = none :=
  empty_input_aborts ["readme.txt"] (fun _ => []) (by decide)

/-- C7: if any matched filename (right prefix and suffix) has an index
segment that is not parseable as an integer, discovery raises the parse
error while sorting and the whole run aborts. -/
theorem bad_index_segment_fatal (listing : List String)
    (fs : String → List (List Int)) (f : String) (hmem : f ∈ listing)
    (hpre : pyStartsWith f "brush_variant_" = true)
    (hsuf : pyEndsWith f ".csv" = true)
    (hkey : fileKey f = none) :
    csv_files listing = none ∧ run listing fs = none := by
  have hf : f ∈ matchedFiles listing :=
    List.mem_filter.mpr ⟨hmem, by simp [hpre, hsuf]⟩
  have hall : ¬ ((matchedFiles listing).all (fun g => (fileKey g).isSome) = true) := by
    rw [List.all_eq_true]
    intro hA
    have hsome := hA f hf
    rw [hkey] at hsome
    simp at hsome
  have hcsv : csv_files listing = none := by
    simp only [csv_files]
    rw [if_neg hall]
  refine ⟨hcsv, ?_⟩
  simp [run, hcsv]

/-- Witness for C7 at the filename brush_variant_x.csv. -/
theorem bad_index_segment_fatal_witness :
    csv_files ["brush_variant_x.csv"] = none ∧
      run ["brush_variant_x.csv"] (fun _ => [[1]]) = none :=
  bad_index_segment_fatal ["brush_variant_x.csv"] (fun _ => [[1]])
    "brush_variant_x.csv" (by decide) (by decide) (by decide) (by decide)

/-- C10: the sort key is the integer parsed from the piece between the
last underscore and the first following dot, so brush_variant_3.5.csv is
matched and accepted with index 3 rather than rejected. -/
theorem dotted_filename_accepted :
    pyStartsWith "brush_variant_3.5.csv" "brush_variant_" = true ∧
    pyEndsWith "brush_variant_3.5.csv" ".csv" = true ∧
    fileKey "brush_variant_3.5.csv" = some 3 ∧
    csv_files ["brush_variant_3.5.csv"] = some ["brush_variant_3.5.csv"] :=
  ⟨by decide, by decide, by decide, by decide⟩

/-- Listing used by several witnesses, deliberately out of order. -/
def pairListing : List String := ["brush_variant_1.csv", "brush_variant_0.csv"]

/-- File contents: every file holds the 1x1 array [[1]]. -/
def constCell : String → List (List Int) := fun _ => [[1]]

/-- C4: the figure has exactly one panel per discovered file, in a single
row, and the panel sequence carries the file data in discovery order
(which is ascending index order). -/
theorem panel_count_matches_files (listing : List String)
    (fs : String → List (List Int)) (l : List String) (fig : Figure)
    (hl : csv_files listing = some l) (h : run listing fs = some fig) :
    fig.panels.length = l.length ∧ fig.nrows = 1 ∧
    fig.panels.map Panel.data = l.map fs := by
  obtain ⟨l2, gmin, gmax, axes, hc, hg, hG, ha, hlen, hpanels, hrow, _, _, _, _⟩ :=
    run_inv h
  rw [hl] at hc
  obtain rfl : l = l2 := Option.some.inj hc
  refine ⟨?_, hrow, ?_⟩
  · rw [hpanels]
    simp [List.length_zip, hlen]
  · rw [hpanels, List.map_map]
    rw [show (Panel.data ∘ fun p : Nat × (List (List Int) × Nat) =>
        mkPanel p.1 p.2.1 p.2.2 gmin gmax) = Prod.fst ∘ Prod.snd from rfl]
    rw [← List.map_map, List.enum_map_snd]
    exact List.map_fst_zip _ _ (le_of_eq hlen.symm)

/-- Witness for C4 with two files listed out of order. -/
theorem panel_count_matches_files_witness :
    ∃ fig, run pairListing constCell = some fig ∧
      fig.panels.length = 2 ∧ fig.nrows = 1 ∧
      fig.panels.map Panel.data =
        (["brush_variant_0.csv", "brush_variant_1.csv"].map constCell) := by
  have hs : (run pairListing constCell).isSome = true := by decide
  obtain ⟨fig, hfig⟩ := Option.isSome_iff_exists.mp hs
  have hm := panel_count_matches_files pairListing constCell
    ["brush_variant_0.csv", "brush_variant_1.csv"] fig (by decide) hfig
  exact ⟨fig, hfig, hm.1, hm.2.1, hm.2.2⟩

/-- C5: with exactly one discovered file, plt.subplots hands back a lone
panel handle, the script normalizes it into a one-element sequence, and
the run still produces a figure with one panel and one colorbar. -/
theorem singleton_axes_normalized (listing : List String)
    (fs : String → List (List Int)) (f : String)
    (hl : csv_files listing = some [f]) (hne : (fs f).flatten ≠ []) :
    subplotsAxes 1 = AxesResult.single 0 ∧ axesList 1 = some [0] ∧
    ∃ fig, run listing fs = some fig ∧
      fig.panels.length = 1 ∧ fig.colorbars.length = 1 := by
  refine ⟨rfl, rfl, ?_⟩
  have h1 : ([fs f] : List (List (List Int))) ≠ [] := by simp
  have h2 : ∀ m ∈ ([fs f] : List (List (List Int))), m.flatten ≠ [] := by
    intro m hm
    rw [List.mem_singleton.mp hm]
    exact hne
  obtain ⟨gmin, hg, _, _⟩ := global_min_spec h1 h2
  obtain ⟨gmax, hG, _, _⟩ := global_max_spec h1 h2
  refine ⟨mkFigure 1 [mkPanel 0 (fs f) 0 gmin gmax] (mkPanel 0 (fs f) 0 gmin gmax) [0],
    ?_, rfl, rfl⟩
  simp [run, hl, hg, hG, axesList, subplotsAxes, cbarTargetOf]

/-- Witness for C5 at a single-file directory. -/
theorem singleton_axes_normalized_witness :
    subplotsAxes 1 = AxesResult.single 0 ∧ axesList 1 = some [0] ∧
    ∃ fig, run ["brush_variant_0.csv"] constCell = some fig ∧
      fig.panels.length = 1 ∧ fig.colorbars.length = 1 :=
  singleton_axes_normalized ["brush_variant_0.csv"] constCell
    "brush_variant_0.csv" (by decide) (by decide)

/-- C6: every panel title is Variant followed by the panel's zero-based
position in render order, regardless of the filename-embedded index. -/
theorem titles_use_render_position (listing : List String)
    (fs : String → List (List Int)) (fig : Figure)
    (h : run listing fs = some fig) :
    fig.panels.map Panel.title =
      (List.range fig.panels.length).map (fun i => "Variant " ++ toString i) := by
  obtain ⟨l, gmin, gmax, axes, hc, hg, hG, ha, hlen, hpanels, _⟩ := run_inv h
  rw [hpanels, List.map_map]
  rw [show (Panel.title ∘ fun p : Nat × (List (List Int) × Nat) =>
      mkPanel p.1 p.2.1 p.2.2 gmin gmax) =
      ((fun i => "Variant " ++ toString i) ∘ Prod.fst) from rfl]
  rw [← List.map_map, List.enum_map_fst]
  simp

/-- Witness for C6: sparse indices 0, 2, 5 give titles Variant 0, 1, 2. -/
theorem titles_use_render_position_witness :
    ∃ fig, run ["brush_variant_5.csv", "brush_variant_0.csv", "brush_variant_2.csv"]
        constCell = some fig ∧
      fig.panels.map Panel.title = ["Variant 0", "Variant 1", "Variant 2"] := by
  have hs : (run ["brush_variant_5.csv", "brush_variant_0.csv", "brush_variant_2.csv"]
      constCell).isSome = true := by decide
  obtain ⟨fig, hfig⟩ := Option.isSome_iff_exists.mp hs
  have ht := titles_use_render_position _ _ fig hfig
  have h3 : fig.panels.length = 3 := by
    have hmap : (run ["brush_variant_5.csv", "brush_variant_0.csv", "brush_variant_2.csv"]
        constCell).map (fun g => g.panels.length) = some 3 := by decide
    rw [hfig] at hmap
    simpa using hmap
  rw [h3] at ht
  exact ⟨fig, hfig, by rw [ht]; rfl⟩

/-- Two files: one all-zeros 2x2 array, one all-tens 2x2 array. -/
def twoListing : List String := ["brush_variant_0.csv", "brush_variant_1.csv"]

/-- Contents for the two-file scenario. -/
def twoFS : String → List (List Int) := fun f =>
  if f = "brush_variant_0.csv" then [[0, 0], [0, 0]] else [[10, 10], [10, 10]]

/-- C8: every panel is rendered with nearest-neighbor interpolation, the
fixed color scheme, and normalization bounds equal to the shared global
scale. -/
theorem panels_share_global_scale (listing : List String)
    (fs : String → List (List Int)) (l : List String) (fig : Figure)
    (hl : csv_files listing = some l) (h : run listing fs = some fig) :
    ∀ p ∈ fig.panels, p.interpolation = "nearest" ∧ p.cmap = "hot" ∧
      global_min (l.map fs) = some p.vmin ∧
      global_max (l.map fs) = some p.vmax := by
  obtain ⟨l2, gmin, gmax, axes, hc, hg, hG, ha, hlen, hpanels, _⟩ := run_inv h
  rw [hl] at hc
  obtain rfl : l = l2 := Option.some.inj hc
  intro p hp
  rw [hpanels] at hp
  obtain ⟨q, hq, rfl⟩ := List.mem_map.mp hp
  exact ⟨rfl, rfl, hg, hG⟩

/-- Witness for C8: scale (0, 10) shared by both panels. -/
theorem panels_share_global_scale_witness :
    global_min (twoListing.map twoFS) = some 0 ∧
    global_max (twoListing.map twoFS) = some 10 ∧
    ∃ fig, run twoListing twoFS = some fig ∧ ∀ p ∈ fig.panels,
      p.interpolation = "nearest" ∧ p.vmin = 0 ∧ p.vmax = 10 := by
  refine ⟨by decide, by decide, ?_⟩
  have hs : (run twoListing twoFS).isSome = true := by decide
  obtain ⟨fig, hfig⟩ := Option.isSome_iff_exists.mp hs
  have hm := panels_share_global_scale twoListing twoFS twoListing fig (by decide) hfig
  refine ⟨fig, hfig, fun p hp => ?_⟩
  obtain ⟨h1, _, h3, h4⟩ := hm p hp
  have h0 : global_min (twoListing.map twoFS) = some 0 := by decide
  have h10 : global_max (twoListing.map twoFS) = some 10 := by decide
  rw [h0] at h3
  rw [h10] at h4
  exact ⟨h1, (Option.some.inj h3).symm, (Option.some.inj h4).symm⟩

/-- C9: whenever a figure is produced its array count n is at least 1 and
the layout is one row of n columns with size (3n, 3). -/
theorem layout_single_row_linear_width (listing : List String)
    (fs : String → List (List Int)) (fig : Figure)
    (h : run listing fs = some fig) :
    fig.nrows = 1 ∧ 1 ≤ fig.panels.length ∧ fig.ncols = fig.panels.length ∧
    fig.figWidth = 3 * fig.panels.length ∧ fig.figHeight = 3 := by
  obtain ⟨l, gmin, gmax, axes, hc, hg, hG, ha, hlen, hpanels, hrow, hcols, hw, hh, _⟩ :=
    run_inv h
  have hplen : fig.panels.length = (l.map fs).length := by
    rw [hpanels]
    simp [List.length_zip, hlen]
  have hpos : l.map fs ≠ [] := global_min_ne_nil hg
  refine ⟨hrow, ?_, by rw [hcols, hplen], by rw [hw, hplen], hh⟩
  rw [hplen]
  exact List.length_pos.mpr hpos

/-- Witness for C9 at a two-file directory. -/
theorem layout_single_row_linear_width_witness :
    ∃ fig, run pairListing constCell = some fig ∧ fig.nrows = 1 ∧
      1 ≤ fig.panels.length ∧ fig.ncols = fig.panels.length ∧
      fig.figWidth = 3 * fig.panels.length ∧ fig.figHeight = 3 := by
  have hs : (run pairListing constCell).isSome = true := by decide
  obtain ⟨fig, hfig⟩ := Option.isSome_iff_exists.mp hs
  obtain ⟨a, b, c, d, e⟩ := layout_single_row_linear_width pairListing constCell fig hfig
  exact ⟨fig, hfig, a, b, c, d, e⟩
